import Mathlib

/-!
Verification of the PDF-index reconciliation core of `multi_rag.py`
(`class MultiRAG`): content fingerprinting, manifest store, and the
rebuild / incremental-add / no-op decision logic, shallowly embedded as
executable Lean definitions.

Modelling conventions, stated once:
* File bytes are `List Nat`.  `hashlib.md5` is modelled as a state that
  absorbs the byte stream chunk by chunk (`MD5State.update` appends the
  chunk) and whose digest is the absorbed stream: this keeps exactly the
  algebraic behaviour the source relies on (the digest is a function of
  the concatenation of the chunks fed to `update`), idealising away MD5
  collisions.
* The filesystem visible to the class is a `Disk`: the PDF folder as an
  association list from file name to `FileEntry`, the manifest file
  (absent, corrupt, or parsed JSON), and the two FAISS artifacts
  `index.faiss` / `index.pkl` (absent, incomplete, or both present with
  the persisted chunk list).
* External langchain operations (`PyPDFLoader().load()`, the text
  splitter applied to one page document, `similarity_search`) are
  parameters collected in `Env`; theorems hold for every `Env`.
  `FAISS.from_documents` fails on an empty chunk list, mirroring
  `langchain_community`'s `FAISS.__from`, which evaluates
  `len(embeddings[0])` and raises `IndexError` when given no texts.
* Each run returns a `RunResult`: the final disk, the final value of
  `self.vectorstore` (initialised to `None`, i.e. `none`, and assigned by
  the branches), which branch was printed, and a trace of the PDF loads
  and disk writes in the order they happen.
-/

/-- MD5 modelled as the absorbed byte stream. -/
structure MD5State where
  absorbed : List Nat
deriving DecidableEq, Repr

/-- The call `h.update(chunk)` absorbs one chunk of bytes. -/
def MD5State.update (h : MD5State) (chunk : List Nat) : MD5State :=
  ⟨h.absorbed ++ chunk⟩

/-- The call `h.hexdigest()`: the digest is the absorbed stream (collision-free MD5 idealisation). -/
def MD5State.hexdigest (h : MD5State) : List Nat :=
  h.absorbed

/-- The block reads `iter(lambda: f.read(chunk_size), b"")` performed by
`_hash_file`: the byte list split into consecutive blocks of `chunkSize`
bytes.  Fuel-based recursion (the fuel is the remaining length) so that the
definition reduces in the kernel. -/
def readBlocks : Nat → Nat → List Nat → List (List Nat)
  | 0, _, _ => []
  | _ + 1, _, [] => []
  | fuel + 1, chunkSize, content =>
    content.take chunkSize :: readBlocks fuel chunkSize (content.drop chunkSize)

/-- Embeds `MultiRAG._hash_file(path, chunk_size)`: feed the file's bytes to MD5 in
blocks of `chunkSize` and return the digest. -/
def hash_file (chunkSize : Nat) (content : List Nat) : List Nat :=
  ((readBlocks content.length chunkSize content).foldl MD5State.update ⟨[]⟩).hexdigest

/-- The default `chunk_size=1024 * 1024` of `_hash_file`. -/
def HASH_CHUNK_SIZE : Nat := 1024 * 1024

/-- A file on disk: its byte content and its modification time. -/
structure FileEntry where
  content : List Nat
  mtime : Int
deriving DecidableEq, Repr

/-- One manifest entry: `{"hash": ..., "mtime": ...}`. -/
structure Fingerprint where
  hash : List Nat
  mtime : Int
deriving DecidableEq, Repr

/-- The manifest as parsed from JSON: an insertion-ordered mapping from
document name to fingerprint. -/
def Manifest : Type := List (String × Fingerprint)

instance : DecidableEq Manifest := by
  unfold Manifest
  infer_instance

/-- Content of the `manifest.json` file when it exists: valid JSON or corrupt. -/
inductive ManifestFile where
  | valid (m : List (String × Fingerprint))
  | corrupt
deriving DecidableEq, Repr

/-- A chunk held by the vector store (`page_content` plus source metadata). -/
structure Chunk where
  text : String
  source : String
  page : Nat
deriving DecidableEq, Repr

/-- The two FAISS artifacts `index.faiss` and `index.pkl` at `db_path`:
absent, incomplete (only one of the two files present), or both present,
jointly persisting a chunk list. -/
inductive IndexFiles where
  | absent
  | incomplete
  | present (chunks : List Chunk)
deriving DecidableEq, Repr

/-- The filesystem state the class reads and writes. -/
structure Disk where
  folder : List (String × FileEntry)
  manifestFile : Option ManifestFile
  indexFiles : IndexFiles
deriving DecidableEq, Repr

/-- External langchain operations, abstract parameters of every run:
`loadPdf name bytes` is `PyPDFLoader(path).load()` (the page documents of
one PDF), `splitDoc` is the `RecursiveCharacterTextSplitter` applied to a
single page document, and `similarity_search` is FAISS search over the
store's chunks. -/
structure Env where
  loadPdf : String → List Nat → List Chunk
  splitDoc : Chunk → List Chunk
  similarity_search : List Chunk → String → Nat → List Chunk

/-- Python-level errors the embedded code can raise. -/
inductive PyError where
  | faissEmptyIndexError
  | faissLoadError
  | attributeError
deriving DecidableEq, Repr

/-- Which branch of `_build_or_update_vectorstore` ran (each prints a
distinct message). -/
inductive Branch where
  | fullRebuild
  | incrementalAdd
  | noOp
deriving DecidableEq, Repr

/-- Observable I/O events of one run, in order: a PDF handed to
`PyPDFLoader`, the `save_local` of the index files, the write of
`manifest.json`. -/
inductive Ev where
  | loadedPdf (name : String)
  | savedIndex
  | savedManifest
deriving DecidableEq, Repr

/-- Result of one `_build_or_update_vectorstore` run. -/
structure RunResult where
  disk : Disk
  vectorstore : Option (List Chunk)
  branch : Branch
  trace : List Ev
deriving DecidableEq, Repr

/-- First-match lookup in an association list (Python `d[k]` / `k in d`). -/
def mlookup {α : Type} : List (String × α) → String → Option α
  | [], _ => none
  | (k, v) :: rest, n => if k = n then some v else mlookup rest n

/-- Key list of an association list (Python `d.keys()`). -/
def namesOf {α : Type} (m : List (String × α)) : List String :=
  m.map Prod.fst

/-- Python `base.update(upd)` on dicts: existing keys keep their position
and take `upd`'s value, keys new to `base` are appended in `upd`'s order. -/
def dictUpdate (base upd : List (String × Fingerprint)) : List (String × Fingerprint) :=
  base.map (fun kv => (kv.1, (mlookup upd kv.1).getD kv.2)) ++
    upd.filter (fun kv => (mlookup base kv.1).isNone)

/-- Lexicographic (code-point) order on strings, the order `sorted()` uses
on the file names; written over `String.data` so it reduces in the kernel. -/
def dataLe : List Char → List Char → Bool
  | [], _ => true
  | _ :: _, [] => false
  | a :: as, b :: bs =>
    if a.toNat < b.toNat then true
    else if b.toNat < a.toNat then false
    else dataLe as bs

def strLe (a b : String) : Bool := dataLe a.data b.data

/-- Insert into a sorted list, keeping `strLe` order. -/
def insertSorted (a : String) : List String → List String
  | [] => [a]
  | b :: rest => if strLe a b then a :: b :: rest else b :: insertSorted a rest

/-- Python `sorted()` on a list of names (insertion sort; stability is
irrelevant because the inputs here are sets of names). -/
def sortStr : List String → List String
  | [] => []
  | a :: rest => insertSorted a (sortStr rest)

/-- The `*.pdf` filter of `self.pdf_folder.glob("*.pdf")`. -/
def isPdfName (n : String) : Bool :=
  decide (n.data.reverse.take 4 = ['f', 'd', 'p', '.'])

/-- The fingerprint `{"hash": self._hash_file(p), "mtime": int(p.stat().st_mtime)}`. -/
def fingerprintOf (fi : FileEntry) : Fingerprint :=
  ⟨hash_file HASH_CHUNK_SIZE fi.content, fi.mtime⟩

/-- Embeds `MultiRAG._scan_pdfs`: hash and stat every `*.pdf` in the folder, in
sorted name order. -/
def scan_pdfs (folder : List (String × FileEntry)) : Manifest :=
  (sortStr ((namesOf folder).filter isPdfName)).filterMap
    (fun n => (mlookup folder n).map (fun fi => (n, fingerprintOf fi)))

/-- Embeds `MultiRAG._load_manifest`: empty dict when the file is absent or any
exception occurs while reading/parsing it; the parsed mapping otherwise.
Total: no error escapes. -/
def load_manifest (d : Disk) : Manifest :=
  match d.manifestFile with
  | some (.valid m) => m
  | some .corrupt => []
  | none => []

/-- Embeds `MultiRAG._save_manifest`: overwrite `manifest.json` with valid JSON. -/
def save_manifest (d : Disk) (m : Manifest) : Disk :=
  { d with manifestFile := some (.valid m) }

/-- Embeds `MultiRAG._faiss_exists`: both `index.faiss` and `index.pkl` exist. -/
def faiss_exists (d : Disk) : Bool :=
  match d.indexFiles with
  | .present _ => true
  | _ => false

/-- Embeds `FAISS.load_local`: deserialise the persisted chunks; fails unless both
artifacts are present. -/
def faiss_load_local (d : Disk) : Except PyError (List Chunk) :=
  match d.indexFiles with
  | .present cs => .ok cs
  | _ => .error .faissLoadError

/-- Embeds `vectorstore.save_local`: persist the store, writing both artifacts. -/
def faiss_save_local (d : Disk) (cs : List Chunk) : Disk :=
  { d with indexFiles := .present cs }

/-- Embeds `FAISS.from_documents(chunks, embeddings)`: builds a fresh store from the
chunks; raises (`IndexError` in `langchain_community`'s `FAISS.__from`, which
reads `embeddings[0]`) when the chunk list is empty. -/
def faiss_from_documents (chunks : List Chunk) : Except PyError (List Chunk) :=
  if chunks.isEmpty then .error .faissEmptyIndexError else .ok chunks

/-- Embeds `PyPDFLoader(str(self.pdf_folder / fname)).load()` for a name in the
scanned folder (the branches only ever load names the scan just found, so
the lookup never misses there). -/
def loadPdfAt (env : Env) (folder : List (String × FileEntry)) (n : String) : List Chunk :=
  match mlookup folder n with
  | some fi => env.loadPdf n fi.content
  | none => []

/-- Embeds `splitter.split_documents(docs)`: split each page document in order. -/
def split_documents (env : Env) (docs : List Chunk) : List Chunk :=
  docs.flatMap env.splitDoc

/-- Embeds `sorted(cur_files - prev_files)`. -/
def new_files (current previous : Manifest) : List String :=
  sortStr ((namesOf current).filter (fun n => !decide (n ∈ namesOf previous)))

/-- Embeds `sorted(prev_files - cur_files)`. -/
def removed_files (current previous : Manifest) : List String :=
  sortStr ((namesOf previous).filter (fun n => !decide (n ∈ namesOf current)))

/-- Embeds `sorted(f for f in (cur_files & prev_files) if current[f]["hash"] != previous[f]["hash"])`. -/
def modified_files (current previous : Manifest) : List String :=
  sortStr ((namesOf current).filter (fun n =>
    decide (n ∈ namesOf previous) &&
      decide ((mlookup current n).map Fingerprint.hash ≠ (mlookup previous n).map Fingerprint.hash)))

/-- The `need_full_rebuild` condition exactly as written in the source:
index files missing, or some modified file, or some removed file, or
(`not previous and len(current) > 0 and not self._faiss_exists()`). -/
def need_full_rebuild (faissE : Bool) (modifiedF removedF : List String)
    (previous current : Manifest) : Bool :=
  !faissE || decide (modifiedF.length > 0) || decide (removedF.length > 0) ||
    (previous.isEmpty && decide (current.length > 0) && !faissE)

/-- Embeds `MultiRAG._build_full_index(manifest_now)`: load every document of
`manifest_now` in sorted name order, split, embed into a fresh store,
`save_local`, then save the manifest. -/
def build_full_index (env : Env) (d : Disk) (manifest_now : Manifest) :
    Except PyError RunResult :=
  match faiss_from_documents (split_documents env
      ((sortStr (namesOf manifest_now)).flatMap (loadPdfAt env d.folder))) with
  | .error e => .error e
  | .ok vs =>
    .ok ⟨save_manifest (faiss_save_local d vs) manifest_now, some vs, .fullRebuild,
         (sortStr (namesOf manifest_now)).map Ev.loadedPdf ++ [.savedIndex, .savedManifest]⟩

/-- Embeds `MultiRAG._incremental_add(new_files, manifest_now)`: load the existing
store, load+split only the new files, append their chunks, `save_local`,
then re-load the manifest from disk, merge in the new files' fingerprints,
and save it. -/
def incremental_add (env : Env) (d : Disk) (newF : List String) (manifest_now : Manifest) :
    Except PyError RunResult :=
  match faiss_load_local d with
  | .error e => .error e
  | .ok vs0 =>
    let vs := vs0 ++ split_documents env (newF.flatMap (loadPdfAt env d.folder))
    let d1 := faiss_save_local d vs
    let merged := dictUpdate (load_manifest d1)
      (newF.filterMap (fun f => (mlookup manifest_now f).map (fun fp => (f, fp))))
    .ok ⟨save_manifest d1 merged, some vs, .incrementalAdd,
         newF.map Ev.loadedPdf ++ [.savedIndex, .savedManifest]⟩

/-- Embeds `MultiRAG._build_or_update_vectorstore`: scan, load the manifest, diff,
and dispatch to full rebuild, incremental add, or no-op load. -/
def build_or_update_vectorstore (env : Env) (d : Disk) : Except PyError RunResult :=
  let current := scan_pdfs d.folder
  let previous := load_manifest d
  let newF := new_files current previous
  let removedF := removed_files current previous
  let modifiedF := modified_files current previous
  if need_full_rebuild (faiss_exists d) modifiedF removedF previous current then
    build_full_index env d current
  else if newF.length > 0 then
    incremental_add env d newF current
  else
    match faiss_load_local d with
    | .error e => .error e
    | .ok vs => .ok ⟨d, some vs, .noOp, []⟩

/-- Embeds `MultiRAG.retrieve_relevant_context(query)` with the default `k=20`
(the application never overrides `k`): `self.vectorstore.similarity_search`
raises `AttributeError` when `self.vectorstore` is still `None`, and
otherwise joins the retrieved chunks' texts with newlines, in the order the
search returned them (nearest first). -/
def retrieve_relevant_context (env : Env) (vectorstore : Option (List Chunk))
    (query : String) : Except PyError String :=
  match vectorstore with
  | none => .error .attributeError
  | some vs => .ok (String.intercalate "\n" ((env.similarity_search vs query 20).map Chunk.text))

/-! ### Hash function: the digest is the byte content, for every positive block size -/

theorem readBlocks_flatten (fuel chunkSize : Nat) (c : List Nat)
    (hfuel : c.length ≤ fuel) (hcs : 0 < chunkSize) :
    (readBlocks fuel chunkSize c).flatten = c := by
  induction fuel generalizing c with
  | zero =>
    cases c with
    | nil => rfl
    | cons a as => simp at hfuel
  | succ fuel ih =>
    cases c with
    | nil => rfl
    | cons a as =>
      show (a :: as).take chunkSize ++ (readBlocks fuel chunkSize ((a :: as).drop chunkSize)).flatten
        = a :: as
      rw [ih ((a :: as).drop chunkSize) ?hlen, List.take_append_drop]
      case hlen =>
        have h1 : ((a :: as).drop chunkSize).length = (a :: as).length - chunkSize := by
          simp
        omega

theorem foldl_update_absorbed (chunks : List (List Nat)) (s : MD5State) :
    (chunks.foldl MD5State.update s).absorbed = s.absorbed ++ chunks.flatten := by
  induction chunks generalizing s with
  | nil => simp
  | cons c cs ih => simp [ih, MD5State.update]

theorem hash_file_eq_content (chunkSize : Nat) (c : List Nat) (hcs : 0 < chunkSize) :
    hash_file chunkSize c = c := by
  unfold hash_file MD5State.hexdigest
  rw [foldl_update_absorbed, readBlocks_flatten c.length chunkSize c le_rfl hcs]
  rfl

/-! ### Association list and sorting infrastructure -/

theorem mlookup_eq_none_iff {α : Type} (l : List (String × α)) (n : String) :
    mlookup l n = none ↔ n ∉ namesOf l := by
  induction l with
  | nil => simp [mlookup, namesOf]
  | cons kv rest ih =>
    obtain ⟨k, v⟩ := kv
    by_cases hk : k = n
    · subst hk
      simp [mlookup, namesOf]
    · simp only [mlookup, if_neg hk, namesOf, List.map_cons, List.mem_cons]
      rw [ih]
      unfold namesOf
      constructor
      · rintro h (h1 | h2)
        · exact hk h1.symm
        · exact h h2
      · intro h h2
        exact h (Or.inr h2)

theorem mem_namesOf_of_mlookup {α : Type} {l : List (String × α)} {n : String} {v : α}
    (h : mlookup l n = some v) : n ∈ namesOf l := by
  by_contra hmem
  rw [← mlookup_eq_none_iff] at hmem
  rw [hmem] at h
  exact Option.noConfusion h

theorem mlookup_isSome_of_mem {α : Type} {l : List (String × α)} {n : String}
    (h : n ∈ namesOf l) : ∃ v, mlookup l n = some v := by
  cases hl : mlookup l n with
  | none => exact absurd h ((mlookup_eq_none_iff l n).mp hl)
  | some v => exact ⟨v, rfl⟩

theorem mem_insertSorted (x a : String) (l : List String) :
    x ∈ insertSorted a l ↔ x = a ∨ x ∈ l := by
  induction l with
  | nil => simp [insertSorted]
  | cons b rest ih =>
    unfold insertSorted
    by_cases h : strLe a b = true
    · simp [h]
    · simp only [if_neg h, List.mem_cons, ih]
      tauto

theorem mem_sortStr (x : String) (l : List String) : x ∈ sortStr l ↔ x ∈ l := by
  induction l with
  | nil => simp [sortStr]
  | cons a rest ih => simp [sortStr, mem_insertSorted, ih]

theorem insertSorted_ne_nil (a : String) (l : List String) : insertSorted a l ≠ [] := by
  cases l with
  | nil => simp [insertSorted]
  | cons b rest =>
    unfold insertSorted
    split <;> simp

theorem sortStr_eq_nil_iff (l : List String) : sortStr l = [] ↔ l = [] := by
  cases l with
  | nil => simp [sortStr]
  | cons a rest =>
    simp only [sortStr]
    constructor
    · intro h
      exact absurd h (insertSorted_ne_nil a (sortStr rest))
    · intro h
      exact List.noConfusion h

/-! ### Dict update and merged-entry lookups -/

theorem mlookup_append {α : Type} (l1 l2 : List (String × α)) (n : String) :
    mlookup (l1 ++ l2) n = match mlookup l1 n with
      | some v => some v
      | none => mlookup l2 n := by
  induction l1 with
  | nil => simp [mlookup]
  | cons kv rest ih =>
    obtain ⟨k, v⟩ := kv
    by_cases hk : k = n
    · subst hk
      simp [mlookup]
    · simp [mlookup, if_neg hk, ih]

theorem mlookup_map_val {α : Type} (l : List (String × α)) (g : String → α → α) (n : String) :
    mlookup (l.map (fun kv => (kv.1, g kv.1 kv.2))) n = (mlookup l n).map (g n) := by
  induction l with
  | nil => simp [mlookup]
  | cons kv rest ih =>
    obtain ⟨k, v⟩ := kv
    by_cases hk : k = n
    · subst hk
      simp [mlookup]
    · simp [mlookup, if_neg hk, ih]

theorem mlookup_filter_keep {α : Type} (l : List (String × α)) (p : String × α → Bool)
    (n : String) (hp : ∀ v, p (n, v) = true) :
    mlookup (l.filter p) n = mlookup l n := by
  induction l with
  | nil => simp [mlookup]
  | cons kv rest ih =>
    obtain ⟨k, v⟩ := kv
    by_cases hk : k = n
    · subst hk
      rw [List.filter_cons, hp v]
      simp [mlookup]
    · rw [List.filter_cons]
      cases hpk : p (k, v) with
      | true => simp [mlookup, if_neg hk, ih]
      | false => simp [mlookup, if_neg hk, ih]

theorem dictUpdate_mlookup (base upd : List (String × Fingerprint)) (n : String) :
    mlookup (dictUpdate base upd) n = match mlookup base n with
      | some v => some ((mlookup upd n).getD v)
      | none => mlookup upd n := by
  unfold dictUpdate
  rw [mlookup_append]
  rw [mlookup_map_val base (fun k v => (mlookup upd k).getD v) n]
  cases hb : mlookup base n with
  | some v => simp
  | none =>
    have hk : mlookup (upd.filter (fun kv => (mlookup base kv.1).isNone)) n = mlookup upd n :=
      mlookup_filter_keep upd _ n (fun v => by simp [hb])
    simp [hk]

theorem mlookup_filterMap_entries (fs : List String) (cur : Manifest) (n : String) :
    mlookup (fs.filterMap (fun f => (mlookup cur f).map (fun fp => (f, fp)))) n
      = if n ∈ fs then mlookup cur n else none := by
  induction fs with
  | nil => simp [mlookup]
  | cons f rest ih =>
    rw [List.filterMap_cons]
    by_cases hn : n = f
    · subst hn
      cases hf : mlookup cur n with
      | some fp => simp [mlookup, hf]
      | none =>
        simp only [Option.map_none']
        rw [ih]
        by_cases hmem : n ∈ rest
        · simp [hmem, hf]
        · simp [hmem, hf]
    · cases hf : mlookup cur f with
      | some fp =>
        simp only [Option.map_some']
        have hstep : mlookup ((f, fp) ::
            (rest.filterMap (fun g => (mlookup cur g).map (fun fp => (g, fp))))) n
            = mlookup (rest.filterMap (fun g => (mlookup cur g).map (fun fp => (g, fp)))) n := by
          show (if f = n then some fp
            else mlookup (rest.filterMap (fun g => (mlookup cur g).map (fun fp => (g, fp)))) n) = _
          rw [if_neg (fun h => hn h.symm)]
        rw [hstep, ih]
        simp [List.mem_cons, hn]
      | none =>
        simp only [Option.map_none']
        rw [ih]
        simp [List.mem_cons, hn]

/-! ### Characterising the three diff lists -/

theorem new_files_eq_nil_iff (current previous : Manifest) :
    new_files current previous = [] ↔ ∀ n ∈ namesOf current, n ∈ namesOf previous := by
  unfold new_files
  rw [sortStr_eq_nil_iff, List.filter_eq_nil_iff]
  constructor
  · intro h n hn
    simpa using h n hn
  · intro h n hn
    simpa using h n hn

theorem removed_files_eq_nil_iff (current previous : Manifest) :
    removed_files current previous = [] ↔ ∀ n ∈ namesOf previous, n ∈ namesOf current := by
  unfold removed_files
  rw [sortStr_eq_nil_iff, List.filter_eq_nil_iff]
  constructor
  · intro h n hn
    simpa using h n hn
  · intro h n hn
    simpa using h n hn

theorem modified_files_eq_nil_iff (current previous : Manifest) :
    modified_files current previous = [] ↔
      ∀ n, n ∈ namesOf current → n ∈ namesOf previous →
        (mlookup current n).map Fingerprint.hash = (mlookup previous n).map Fingerprint.hash := by
  unfold modified_files
  rw [sortStr_eq_nil_iff, List.filter_eq_nil_iff]
  constructor
  · intro h n hcur hprev
    have := h n hcur
    simp only [Bool.and_eq_true, decide_eq_true_eq, not_and] at this
    by_contra hne
    exact (this hprev) hne
  · intro h n hn
    simp only [Bool.and_eq_true, decide_eq_true_eq, not_and]
    intro hprev
    simp [h n hn hprev]

theorem mem_new_files (current previous : Manifest) (n : String) :
    n ∈ new_files current previous ↔ n ∈ namesOf current ∧ n ∉ namesOf previous := by
  unfold new_files
  rw [mem_sortStr, List.mem_filter]
  simp

/-! ### Shape of each branch of the reconciliation -/

theorem build_full_index_ok_elim {env : Env} {d : Disk} {m : Manifest} {r : RunResult}
    (h : build_full_index env d m = .ok r) :
    r = ⟨save_manifest (faiss_save_local d (split_documents env
            ((sortStr (namesOf m)).flatMap (loadPdfAt env d.folder)))) m,
         some (split_documents env ((sortStr (namesOf m)).flatMap (loadPdfAt env d.folder))),
         .fullRebuild,
         (sortStr (namesOf m)).map Ev.loadedPdf ++ [.savedIndex, .savedManifest]⟩ := by
  unfold build_full_index at h
  split at h
  · exact Except.noConfusion h
  · rename_i vs heq
    unfold faiss_from_documents at heq
    split at heq
    · exact Except.noConfusion heq
    · cases heq
      cases h
      rfl

theorem incremental_add_ok_elim {env : Env} {d : Disk} {newF : List String} {m : Manifest}
    {r : RunResult} (h : incremental_add env d newF m = .ok r) :
    ∃ cs0, d.indexFiles = .present cs0 ∧
      r = ⟨save_manifest (faiss_save_local d
              (cs0 ++ split_documents env (newF.flatMap (loadPdfAt env d.folder))))
             (dictUpdate (load_manifest d)
               (newF.filterMap (fun f => (mlookup m f).map (fun fp => (f, fp))))),
           some (cs0 ++ split_documents env (newF.flatMap (loadPdfAt env d.folder))),
           .incrementalAdd,
           newF.map Ev.loadedPdf ++ [.savedIndex, .savedManifest]⟩ := by
  unfold incremental_add faiss_load_local at h
  cases hidx : d.indexFiles with
  | absent =>
    rw [hidx] at h
    exact Except.noConfusion h
  | incomplete =>
    rw [hidx] at h
    exact Except.noConfusion h
  | present cs0 =>
    rw [hidx] at h
    refine ⟨cs0, rfl, ?_⟩
    cases h
    rfl

theorem need_full_rebuild_eq_false_elim {faissE : Bool} {modifiedF removedF : List String}
    {previous current : Manifest}
    (h : need_full_rebuild faissE modifiedF removedF previous current = false) :
    faissE = true ∧ modifiedF = [] ∧ removedF = [] := by
  unfold need_full_rebuild at h
  simp only [Bool.or_eq_false_iff] at h
  obtain ⟨⟨⟨h1, h2⟩, h3⟩, _⟩ := h
  refine ⟨?_, ?_, ?_⟩
  · cases faissE
    · simp at h1
    · rfl
  · simp only [decide_eq_false_iff_not, Nat.not_lt, Nat.le_zero,
      List.length_eq_zero] at h2
    exact h2
  · simp only [decide_eq_false_iff_not, Nat.not_lt, Nat.le_zero,
      List.length_eq_zero] at h3
    exact h3

theorem reconcile_cases (env : Env) (d : Disk) (r : RunResult)
    (h : build_or_update_vectorstore env d = .ok r) :
    (need_full_rebuild (faiss_exists d)
        (modified_files (scan_pdfs d.folder) (load_manifest d))
        (removed_files (scan_pdfs d.folder) (load_manifest d))
        (load_manifest d) (scan_pdfs d.folder) = true ∧
      build_full_index env d (scan_pdfs d.folder) = .ok r) ∨
    (need_full_rebuild (faiss_exists d)
        (modified_files (scan_pdfs d.folder) (load_manifest d))
        (removed_files (scan_pdfs d.folder) (load_manifest d))
        (load_manifest d) (scan_pdfs d.folder) = false ∧
      new_files (scan_pdfs d.folder) (load_manifest d) ≠ [] ∧
      incremental_add env d (new_files (scan_pdfs d.folder) (load_manifest d))
        (scan_pdfs d.folder) = .ok r) ∨
    (need_full_rebuild (faiss_exists d)
        (modified_files (scan_pdfs d.folder) (load_manifest d))
        (removed_files (scan_pdfs d.folder) (load_manifest d))
        (load_manifest d) (scan_pdfs d.folder) = false ∧
      new_files (scan_pdfs d.folder) (load_manifest d) = [] ∧
      ∃ cs, d.indexFiles = .present cs ∧ r = ⟨d, some cs, .noOp, []⟩) := by
  unfold build_or_update_vectorstore at h
  by_cases hfull : need_full_rebuild (faiss_exists d)
      (modified_files (scan_pdfs d.folder) (load_manifest d))
      (removed_files (scan_pdfs d.folder) (load_manifest d))
      (load_manifest d) (scan_pdfs d.folder) = true
  · rw [if_pos hfull] at h
    exact Or.inl ⟨hfull, h⟩
  · rw [Bool.not_eq_true] at hfull
    rw [if_neg (by simp [hfull])] at h
    by_cases hnew : new_files (scan_pdfs d.folder) (load_manifest d) = []
    · rw [if_neg (by simp [hnew])] at h
      refine Or.inr (Or.inr ⟨hfull, hnew, ?_⟩)
      unfold faiss_load_local at h
      cases hidx : d.indexFiles with
      | present cs =>
        rw [hidx] at h
        refine ⟨cs, rfl, ?_⟩
        cases h
        rfl
      | absent =>
        rw [hidx] at h
        exact Except.noConfusion h
      | incomplete =>
        rw [hidx] at h
        exact Except.noConfusion h
    · rw [if_pos (by
        have hpos : 0 < (new_files (scan_pdfs d.folder) (load_manifest d)).length :=
          List.length_pos.mpr hnew
        omega)] at h
      exact Or.inr (Or.inl ⟨hfull, hnew, h⟩)

/-! ### Postcondition common to every successful run -/

/-- The manifest `m` and the fresh scan `cur` have the same keys and agree
on every entry's content hash (the modification times may differ). -/
def hashAgrees (m cur : Manifest) : Prop :=
  ∀ n, (mlookup m n).map Fingerprint.hash = (mlookup cur n).map Fingerprint.hash

theorem load_manifest_save (d : Disk) (m : Manifest) :
    load_manifest (save_manifest d m) = m := rfl

theorem load_manifest_save_local (d : Disk) (cs : List Chunk) :
    load_manifest (faiss_save_local d cs) = load_manifest d := rfl

theorem reconcile_post (env : Env) (d : Disk) (r : RunResult)
    (h : build_or_update_vectorstore env d = .ok r) :
    r.disk.folder = d.folder ∧
    (∃ cs, r.disk.indexFiles = .present cs ∧ r.vectorstore = some cs) ∧
    hashAgrees (load_manifest r.disk) (scan_pdfs d.folder) := by
  rcases reconcile_cases env d r h with ⟨hfull, hok⟩ | ⟨hfull, hnew, hok⟩ |
    ⟨hfull, hnew, cs, hidx, hr⟩
  · have hr := build_full_index_ok_elim hok
    subst hr
    exact ⟨rfl, ⟨_, rfl, rfl⟩, fun n => rfl⟩
  · obtain ⟨hfaiss, hmod, hrem⟩ := need_full_rebuild_eq_false_elim hfull
    obtain ⟨cs0, hidx, hr⟩ := incremental_add_ok_elim hok
    subst hr
    refine ⟨rfl, ⟨_, rfl, rfl⟩, ?_⟩
    intro n
    rw [load_manifest_save, dictUpdate_mlookup]
    have hremS := (removed_files_eq_nil_iff (scan_pdfs d.folder) (load_manifest d)).mp hrem
    have hmodS := (modified_files_eq_nil_iff (scan_pdfs d.folder) (load_manifest d)).mp hmod
    cases hb : mlookup (load_manifest d) n with
    | some v =>
      simp only [mlookup_filterMap_entries]
      have hmemp : n ∈ namesOf (load_manifest d) := mem_namesOf_of_mlookup hb
      have hmemc : n ∈ namesOf (scan_pdfs d.folder) := hremS n hmemp
      have hnnew : n ∉ new_files (scan_pdfs d.folder) (load_manifest d) := by
        rw [mem_new_files]
        rintro ⟨_, hcon⟩
        exact hcon hmemp
      rw [if_neg hnnew]
      have hh := hmodS n hmemc hmemp
      rw [hb] at hh
      simpa using hh.symm
    | none =>
      simp only [mlookup_filterMap_entries]
      have hnp : n ∉ namesOf (load_manifest d) := (mlookup_eq_none_iff _ n).mp hb
      by_cases hc : n ∈ namesOf (scan_pdfs d.folder)
      · rw [if_pos ((mem_new_files _ _ n).mpr ⟨hc, hnp⟩)]
      · have hcnone : mlookup (scan_pdfs d.folder) n = none := by
          rw [mlookup_eq_none_iff]
          exact hc
        have hnnew : n ∉ new_files (scan_pdfs d.folder) (load_manifest d) := by
          rw [mem_new_files]
          rintro ⟨hcon, _⟩
          exact hc hcon
        rw [if_neg hnnew, hcnone]
  · subst hr
    obtain ⟨hfaiss, hmod, hrem⟩ := need_full_rebuild_eq_false_elim hfull
    refine ⟨rfl, ⟨cs, hidx, rfl⟩, ?_⟩
    intro n
    have hnewS := (new_files_eq_nil_iff (scan_pdfs d.folder) (load_manifest d)).mp hnew
    have hremS := (removed_files_eq_nil_iff (scan_pdfs d.folder) (load_manifest d)).mp hrem
    have hmodS := (modified_files_eq_nil_iff (scan_pdfs d.folder) (load_manifest d)).mp hmod
    cases hc : mlookup (scan_pdfs d.folder) n with
    | some fp =>
      have hmemc : n ∈ namesOf (scan_pdfs d.folder) := mem_namesOf_of_mlookup hc
      have hmemp : n ∈ namesOf (load_manifest d) := hnewS n hmemc
      have hh := hmodS n hmemc hmemp
      rw [hc] at hh
      exact hh.symm
    | none =>
      have hnc : n ∉ namesOf (scan_pdfs d.folder) := (mlookup_eq_none_iff _ n).mp hc
      have hpnone : mlookup (load_manifest d) n = none := by
        rw [mlookup_eq_none_iff]
        intro hmem
        exact hnc (hremS n hmem)
      rw [hpnone]

/-! ### A clean state reconciles as a no-op -/

theorem reconcile_noop (env : Env) (d : Disk) (cs : List Chunk)
    (hidx : d.indexFiles = .present cs)
    (hag : hashAgrees (load_manifest d) (scan_pdfs d.folder)) :
    build_or_update_vectorstore env d = .ok ⟨d, some cs, .noOp, []⟩ := by
  have hfaiss : faiss_exists d = true := by
    unfold faiss_exists
    rw [hidx]
  have hnew : new_files (scan_pdfs d.folder) (load_manifest d) = [] := by
    rw [new_files_eq_nil_iff]
    intro n hn
    obtain ⟨v, hv⟩ := mlookup_isSome_of_mem hn
    have hh := hag n
    rw [hv] at hh
    cases hp : mlookup (load_manifest d) n with
    | some w => exact mem_namesOf_of_mlookup hp
    | none =>
      rw [hp] at hh
      simp at hh
  have hrem : removed_files (scan_pdfs d.folder) (load_manifest d) = [] := by
    rw [removed_files_eq_nil_iff]
    intro n hn
    obtain ⟨v, hv⟩ := mlookup_isSome_of_mem hn
    have hh := hag n
    rw [hv] at hh
    cases hp : mlookup (scan_pdfs d.folder) n with
    | some w => exact mem_namesOf_of_mlookup hp
    | none =>
      rw [hp] at hh
      simp at hh
  have hmod : modified_files (scan_pdfs d.folder) (load_manifest d) = [] := by
    rw [modified_files_eq_nil_iff]
    intro n _ _
    exact (hag n).symm
  have hcond : need_full_rebuild (faiss_exists d)
      (modified_files (scan_pdfs d.folder) (load_manifest d))
      (removed_files (scan_pdfs d.folder) (load_manifest d))
      (load_manifest d) (scan_pdfs d.folder) = false := by
    rw [hfaiss, hmod, hrem]
    simp [need_full_rebuild]
  simp only [build_or_update_vectorstore]
  rw [hcond, hnew]
  simp [faiss_load_local, hidx]

/-- After any successful run, running the reconciliation again on the
resulting disk is a pure no-op: same disk, same store, empty trace. -/
theorem reconcile_idempotent_aux (env : Env) (d : Disk) (r : RunResult)
    (h : build_or_update_vectorstore env d = .ok r) :
    build_or_update_vectorstore env r.disk = .ok ⟨r.disk, r.vectorstore, .noOp, []⟩ := by
  obtain ⟨hfold, ⟨cs, hidx, hvs⟩, hag⟩ := reconcile_post env d r h
  have hag2 : hashAgrees (load_manifest r.disk) (scan_pdfs r.disk.folder) := by
    rw [hfold]
    exact hag
  have hrun := reconcile_noop env r.disk cs hidx hag2
  rw [hrun, hvs]

/-! ### Trace discipline: every manifest write is preceded by an index write -/

/-- Scans an event trace left to right; `true` iff every `savedManifest`
event is preceded by some earlier `savedIndex` event (given that `seenIndex`
records whether one was already seen). -/
def manifestAfterIndex : Bool → List Ev → Bool
  | _, [] => true
  | seenIndex, .savedManifest :: rest => seenIndex && manifestAfterIndex seenIndex rest
  | _, .savedIndex :: rest => manifestAfterIndex true rest
  | seenIndex, .loadedPdf _ :: rest => manifestAfterIndex seenIndex rest

theorem manifestAfterIndex_loads_pair (ns : List String) (seen : Bool) :
    manifestAfterIndex seen (ns.map Ev.loadedPdf ++ [.savedIndex, .savedManifest]) = true := by
  induction ns generalizing seen with
  | nil => rfl
  | cons a rest ih =>
    show manifestAfterIndex seen (.loadedPdf a :: (rest.map Ev.loadedPdf ++ _)) = true
    show manifestAfterIndex seen (rest.map Ev.loadedPdf ++ _) = true
    exact ih seen

/-! ### The scan's keys are exactly the folder's PDF names -/

theorem mlookup_filterMap_scan (l : List String) (folder : List (String × FileEntry)) (n : String) :
    mlookup (l.filterMap (fun m => (mlookup folder m).map (fun fi => (m, fingerprintOf fi)))) n
      = if n ∈ l then (mlookup folder n).map fingerprintOf else none := by
  induction l with
  | nil => simp [mlookup]
  | cons f rest ih =>
    rw [List.filterMap_cons]
    by_cases hn : n = f
    · subst hn
      cases hf : mlookup folder n with
      | some fi => simp [mlookup, hf]
      | none =>
        simp only [Option.map_none']
        rw [ih]
        by_cases hmem : n ∈ rest
        · simp [hmem, hf]
        · simp [hmem, hf]
    · cases hf : mlookup folder f with
      | some fi =>
        simp only [Option.map_some']
        have hstep : mlookup ((f, fingerprintOf fi) ::
            (rest.filterMap (fun g => (mlookup folder g).map (fun fj => (g, fingerprintOf fj))))) n
            = mlookup (rest.filterMap (fun g => (mlookup folder g).map (fun fj => (g, fingerprintOf fj)))) n := by
          show (if f = n then some (fingerprintOf fi)
            else mlookup (rest.filterMap (fun g => (mlookup folder g).map (fun fj => (g, fingerprintOf fj)))) n) = _
          rw [if_neg (fun h => hn h.symm)]
        rw [hstep, ih]
        simp [List.mem_cons, hn]
      | none =>
        simp only [Option.map_none']
        rw [ih]
        simp [List.mem_cons, hn]

theorem mlookup_scan_pdfs (folder : List (String × FileEntry)) (n : String) :
    mlookup (scan_pdfs folder) n
      = if n ∈ (namesOf folder).filter isPdfName then (mlookup folder n).map fingerprintOf
        else none := by
  unfold scan_pdfs
  rw [mlookup_filterMap_scan]
  by_cases hmem : n ∈ (namesOf folder).filter isPdfName
  · rw [if_pos ((mem_sortStr n _).mpr hmem), if_pos hmem]
  · rw [if_neg (fun h => hmem ((mem_sortStr n _).mp h)), if_neg hmem]

theorem mem_namesOf_scan_pdfs (folder : List (String × FileEntry)) (n : String) :
    n ∈ namesOf (scan_pdfs folder) ↔ n ∈ namesOf folder ∧ isPdfName n = true := by
  constructor
  · intro h
    obtain ⟨v, hv⟩ := mlookup_isSome_of_mem h
    rw [mlookup_scan_pdfs] at hv
    by_cases hmem : n ∈ (namesOf folder).filter isPdfName
    · exact List.mem_filter.mp hmem
    · rw [if_neg hmem] at hv
      exact Option.noConfusion hv
  · intro ⟨hmem, hpdf⟩
    obtain ⟨fi, hfi⟩ := mlookup_isSome_of_mem hmem
    have hmemf : n ∈ (namesOf folder).filter isPdfName := List.mem_filter.mpr ⟨hmem, hpdf⟩
    have : mlookup (scan_pdfs folder) n = some (fingerprintOf fi) := by
      rw [mlookup_scan_pdfs, if_pos hmemf, hfi]
      rfl
    exact mem_namesOf_of_mlookup this

/-! ### The decision condition as the specification words it -/

/-- Modelled from the spec: the decision policy's first disjunct list,
"if the on-disk embedding index is missing/incomplete, OR `removedDocs` is
non-empty, OR `modifiedDocs` is non-empty, then full rebuild". -/
def spec_need_full_rebuild (faissE : Bool) (removedF modifiedF : List String) : Bool :=
  !faissE || !removedF.isEmpty || !modifiedF.isEmpty

/-- The source's condition with the fourth clause dropped. -/
def need_full_rebuild_main (faissE : Bool) (modifiedF removedF : List String) : Bool :=
  !faissE || decide (modifiedF.length > 0) || decide (removedF.length > 0)

/-- The precedence order full rebuild, then incremental add, then no-op. -/
def branch_choice (needFull : Bool) (numNew : Nat) : Branch :=
  if needFull then .fullRebuild else if numNew > 0 then .incrementalAdd else .noOp

/-- Modelled from the spec: the branch the spec's decision policy selects on
the scanned state of disk `d`. -/
def spec_branch (d : Disk) : Branch :=
  branch_choice
    (spec_need_full_rebuild (faiss_exists d)
      (removed_files (scan_pdfs d.folder) (load_manifest d))
      (modified_files (scan_pdfs d.folder) (load_manifest d)))
    (new_files (scan_pdfs d.folder) (load_manifest d)).length

/-! ### Concrete instances used by counterexamples and witnesses -/

/-- A concrete environment: each PDF yields one page document, the splitter
keeps each page as a single chunk, and search returns the first `k` chunks. -/
def env0 : Env :=
  ⟨fun n _ => [⟨n ++ "-page", n, 0⟩], fun c => [c], fun cs _ k => cs.take k⟩

/-- Fresh install: one PDF, no manifest, no index files. -/
def diskFresh : Disk := ⟨[("a.pdf", ⟨[1], 0⟩)], none, .absent⟩

/-- Result of reconciling `diskFresh` under `env0`: a full rebuild. -/
def runFresh : RunResult :=
  ⟨⟨[("a.pdf", ⟨[1], 0⟩)], some (.valid [("a.pdf", ⟨[1], 0⟩)]),
     .present [⟨"a.pdf-page", "a.pdf", 0⟩]⟩,
   some [⟨"a.pdf-page", "a.pdf", 0⟩], .fullRebuild,
   [.loadedPdf "a.pdf", .savedIndex, .savedManifest]⟩

/-- A file whose content (hence hash) is unchanged but whose modification
time on disk (1) differs from the one recorded in the manifest (0); the
index files are intact. -/
def diskTouched : Disk :=
  ⟨[("a.pdf", ⟨[1], 1⟩)], some (.valid [("a.pdf", ⟨[1], 0⟩)]),
    .present [⟨"t", "a.pdf", 0⟩]⟩

/-- A corrupt manifest file next to intact index files and one document. -/
def diskCorrupt : Disk :=
  ⟨[("a.pdf", ⟨[1], 0⟩)], some .corrupt, .present [⟨"t", "a.pdf", 0⟩]⟩

/-- One indexed document `a.pdf` plus a new document `b.pdf`: the
incremental-add scenario. -/
def diskInc : Disk :=
  ⟨[("a.pdf", ⟨[1], 0⟩), ("b.pdf", ⟨[2], 5⟩)], some (.valid [("a.pdf", ⟨[1], 0⟩)]),
    .present [⟨"t", "a.pdf", 0⟩]⟩

/-- Result of reconciling `diskInc` under `env0`: an incremental add. -/
def runInc : RunResult :=
  ⟨⟨[("a.pdf", ⟨[1], 0⟩), ("b.pdf", ⟨[2], 5⟩)],
     some (.valid [("a.pdf", ⟨[1], 0⟩), ("b.pdf", ⟨[2], 5⟩)]),
     .present [⟨"t", "a.pdf", 0⟩, ⟨"b.pdf-page", "b.pdf", 0⟩]⟩,
   some [⟨"t", "a.pdf", 0⟩, ⟨"b.pdf-page", "b.pdf", 0⟩], .incrementalAdd,
   [.loadedPdf "b.pdf", .savedIndex, .savedManifest]⟩

/-! ### C1 -/

/-- C1 (counterexample): with `diskTouched` (same bytes, new mtime, intact
index) the run takes the no-op branch and leaves the persisted entry for
`a.pdf` with mtime 0, while the freshly scanned fingerprint has mtime 1 —
so the persisted manifest does not exactly match `current`. -/
theorem C1_counterexample :
    (build_or_update_vectorstore env0 diskTouched).map
        (fun r => mlookup (load_manifest r.disk) "a.pdf") = .ok (some ⟨[1], 0⟩) ∧
    mlookup (scan_pdfs diskTouched.folder) "a.pdf" = some ⟨[1], 1⟩ ∧
    (⟨[1], 0⟩ : Fingerprint) ≠ (⟨[1], 1⟩ : Fingerprint) :=
  ⟨rfl, rfl, by decide⟩

/-- C1 (amended): after any successful reconciliation, the manifest loaded
from disk has exactly the folder's PDF names as keys and agrees with the
fresh scan on every entry's contentHash; the recorded modifiedTime may
differ from the scanned one (on the no-op and incremental branches). -/
theorem C1_manifest_matches_scan (env : Env) (d : Disk) (r : RunResult)
    (h : build_or_update_vectorstore env d = .ok r) :
    (∀ n, n ∈ namesOf (load_manifest r.disk) ↔
      n ∈ namesOf d.folder ∧ isPdfName n = true) ∧
    hashAgrees (load_manifest r.disk) (scan_pdfs d.folder) := by
  obtain ⟨hfold, _, hag⟩ := reconcile_post env d r h
  refine ⟨?_, hag⟩
  intro n
  rw [← mem_namesOf_scan_pdfs d.folder n]
  constructor
  · intro hm
    obtain ⟨v, hv⟩ := mlookup_isSome_of_mem hm
    have hh := hag n
    rw [hv] at hh
    cases hc : mlookup (scan_pdfs d.folder) n with
    | some w => exact mem_namesOf_of_mlookup hc
    | none =>
      rw [hc] at hh
      simp at hh
  · intro hm
    obtain ⟨v, hv⟩ := mlookup_isSome_of_mem hm
    have hh := hag n
    rw [hv] at hh
    cases hc : mlookup (load_manifest r.disk) n with
    | some w => exact mem_namesOf_of_mlookup hc
    | none =>
      rw [hc] at hh
      simp at hh

/-- C1 witness: the amended postcondition evaluated on the fresh install. -/
theorem C1_manifest_matches_scan_witness :
    (∀ n, n ∈ namesOf (load_manifest runFresh.disk) ↔
      n ∈ namesOf diskFresh.folder ∧ isPdfName n = true) ∧
    hashAgrees (load_manifest runFresh.disk) (scan_pdfs diskFresh.folder) :=
  C1_manifest_matches_scan env0 diskFresh runFresh rfl

/-! ### C2 -/

/-- C2: the source's `need_full_rebuild` condition is logically equivalent
to the spec's three-disjunct condition, its fourth clause is redundant, and
every successful run takes exactly the branch the spec's precedence order
(full rebuild, then incremental add, then no-op) selects. -/
theorem C2_decision_equivalence :
    (∀ (faissE : Bool) (modifiedF removedF : List String) (previous current : Manifest),
        need_full_rebuild faissE modifiedF removedF previous current
          = spec_need_full_rebuild faissE removedF modifiedF) ∧
    (∀ (faissE : Bool) (modifiedF removedF : List String) (previous current : Manifest),
        need_full_rebuild faissE modifiedF removedF previous current
          = need_full_rebuild_main faissE modifiedF removedF) ∧
    (∀ (env : Env) (d : Disk) (r : RunResult),
        build_or_update_vectorstore env d = .ok r → r.branch = spec_branch d) := by
  have hspec : ∀ (faissE : Bool) (modifiedF removedF : List String) (previous current : Manifest),
      need_full_rebuild faissE modifiedF removedF previous current
        = spec_need_full_rebuild faissE removedF modifiedF := by
    intro faissE modF remF prev cur
    cases faissE <;> cases modF <;> cases remF <;>
      simp [need_full_rebuild, spec_need_full_rebuild]
  refine ⟨hspec, ?_, ?_⟩
  · intro faissE modF remF prev cur
    cases faissE <;> cases modF <;> cases remF <;>
      simp [need_full_rebuild, need_full_rebuild_main]
  · intro env d r h
    rcases reconcile_cases env d r h with ⟨hfull, hok⟩ | ⟨hfull, hnew, hok⟩ |
      ⟨hfull, hnew, cs, hidx, hr⟩
    · have hr := build_full_index_ok_elim hok
      subst hr
      unfold spec_branch branch_choice
      rw [← hspec (faiss_exists d) (modified_files (scan_pdfs d.folder) (load_manifest d))
        (removed_files (scan_pdfs d.folder) (load_manifest d)) (load_manifest d)
        (scan_pdfs d.folder), hfull]
      rfl
    · obtain ⟨cs0, hidx, hr⟩ := incremental_add_ok_elim hok
      subst hr
      unfold spec_branch branch_choice
      rw [← hspec (faiss_exists d) (modified_files (scan_pdfs d.folder) (load_manifest d))
        (removed_files (scan_pdfs d.folder) (load_manifest d)) (load_manifest d)
        (scan_pdfs d.folder), hfull]
      have hpos : (new_files (scan_pdfs d.folder) (load_manifest d)).length > 0 :=
        List.length_pos.mpr hnew
      rw [if_neg (by simp), if_pos hpos]
    · subst hr
      unfold spec_branch branch_choice
      rw [← hspec (faiss_exists d) (modified_files (scan_pdfs d.folder) (load_manifest d))
        (removed_files (scan_pdfs d.folder) (load_manifest d)) (load_manifest d)
        (scan_pdfs d.folder), hfull, hnew]
      rfl

/-- C2 witness: the fresh install run takes the spec-selected branch. -/
theorem C2_decision_equivalence_witness : runFresh.branch = spec_branch diskFresh :=
  C2_decision_equivalence.2.2 env0 diskFresh runFresh rfl

/-! ### C3 -/

/-- C3: reconciliation is idempotent — a second run on the disk left by any
successful run takes the no-op branch, performs no PDF load and no write
(empty trace), leaves the disk unchanged, carries the same store, and the
(deterministic) search on that store returns the same results for every
query. -/
theorem C3_reconcile_idempotent (env : Env) (d : Disk) (r : RunResult)
    (h : build_or_update_vectorstore env d = .ok r) :
    build_or_update_vectorstore env r.disk = .ok ⟨r.disk, r.vectorstore, .noOp, []⟩ ∧
    (∀ r2, build_or_update_vectorstore env r.disk = .ok r2 →
      r2.disk = r.disk ∧ r2.trace = [] ∧ r2.branch = .noOp ∧
      r2.vectorstore = r.vectorstore ∧
      (∀ q k, r2.vectorstore.map (fun vs => env.similarity_search vs q k)
        = r.vectorstore.map (fun vs => env.similarity_search vs q k))) := by
  have h2 := reconcile_idempotent_aux env d r h
  refine ⟨h2, ?_⟩
  intro r2 hr2
  rw [h2] at hr2
  injection hr2 with h3
  subst h3
  exact ⟨rfl, rfl, rfl, rfl, fun q k => rfl⟩

/-- C3 witness: the second run after the fresh-install rebuild. -/
theorem C3_reconcile_idempotent_witness :
    build_or_update_vectorstore env0 runFresh.disk
      = .ok ⟨runFresh.disk, runFresh.vectorstore, .noOp, []⟩ ∧
    (∀ r2, build_or_update_vectorstore env0 runFresh.disk = .ok r2 →
      r2.disk = runFresh.disk ∧ r2.trace = [] ∧ r2.branch = .noOp ∧
      r2.vectorstore = runFresh.vectorstore ∧
      (∀ q k, r2.vectorstore.map (fun vs => env0.similarity_search vs q k)
        = runFresh.vectorstore.map (fun vs => env0.similarity_search vs q k))) :=
  C3_reconcile_idempotent env0 diskFresh runFresh rfl

/-! ### C4 -/

/-- C4: on the incremental-add branch, the only PDFs handed to the loader
are exactly the new files (never a previously indexed one), the resulting
store is the loaded store with only the new files' chunks appended, and
every entry of the previously persisted manifest survives byte-identically
in the saved manifest. -/
theorem C4_incremental_frame (env : Env) (d : Disk) (r : RunResult)
    (h : build_or_update_vectorstore env d = .ok r)
    (hb : r.branch = .incrementalAdd) :
    r.trace = (new_files (scan_pdfs d.folder) (load_manifest d)).map Ev.loadedPdf
      ++ [.savedIndex, .savedManifest] ∧
    (∀ n, Ev.loadedPdf n ∈ r.trace →
      n ∈ namesOf (scan_pdfs d.folder) ∧ n ∉ namesOf (load_manifest d)) ∧
    (∃ cs0, d.indexFiles = .present cs0 ∧
      r.vectorstore = some (cs0 ++ split_documents env
        ((new_files (scan_pdfs d.folder) (load_manifest d)).flatMap (loadPdfAt env d.folder)))) ∧
    (∀ n v, mlookup (load_manifest d) n = some v →
      mlookup (load_manifest r.disk) n = some v) := by
  rcases reconcile_cases env d r h with ⟨hfull, hok⟩ | ⟨hfull, hnew, hok⟩ |
    ⟨hfull, hnew, cs, hidx, hr⟩
  · have hr := build_full_index_ok_elim hok
    subst hr
    simp at hb
  · obtain ⟨cs0, hidx, hr⟩ := incremental_add_ok_elim hok
    subst hr
    refine ⟨rfl, ?_, ⟨cs0, hidx, rfl⟩, ?_⟩
    · intro n hmem
      have hmem2 : Ev.loadedPdf n ∈
          (new_files (scan_pdfs d.folder) (load_manifest d)).map Ev.loadedPdf
            ++ [Ev.savedIndex, Ev.savedManifest] := hmem
      rw [List.mem_append] at hmem2
      rcases hmem2 with hm | hm
      · obtain ⟨m, hm1, hm2⟩ := List.mem_map.mp hm
        have hmn : m = n := by
          injection hm2
        subst hmn
        exact (mem_new_files _ _ m).mp hm1
      · simp at hm
    · intro n v hv
      rw [load_manifest_save, dictUpdate_mlookup, hv, mlookup_filterMap_entries]
      have hmemp : n ∈ namesOf (load_manifest d) := mem_namesOf_of_mlookup hv
      have hnnew : n ∉ new_files (scan_pdfs d.folder) (load_manifest d) := by
        rw [mem_new_files]
        rintro ⟨_, hcon⟩
        exact hcon hmemp
      rw [if_neg hnnew]
      rfl
  · subst hr
    simp at hb

/-- C4 witness: the frame property evaluated on the `diskInc` scenario
(existing `a.pdf`, new `b.pdf`). -/
theorem C4_incremental_frame_witness :
    runInc.trace = (new_files (scan_pdfs diskInc.folder) (load_manifest diskInc)).map Ev.loadedPdf
      ++ [.savedIndex, .savedManifest] ∧
    (∀ n, Ev.loadedPdf n ∈ runInc.trace →
      n ∈ namesOf (scan_pdfs diskInc.folder) ∧ n ∉ namesOf (load_manifest diskInc)) ∧
    (∃ cs0, diskInc.indexFiles = .present cs0 ∧
      runInc.vectorstore = some (cs0 ++ split_documents env0
        ((new_files (scan_pdfs diskInc.folder) (load_manifest diskInc)).flatMap
          (loadPdfAt env0 diskInc.folder)))) ∧
    (∀ n v, mlookup (load_manifest diskInc) n = some v →
      mlookup (load_manifest runInc.disk) n = some v) :=
  C4_incremental_frame env0 diskInc runInc rfl rfl

/-! ### C5 -/

/-- C5: with an empty document folder and no prior index the code takes the
full-rebuild branch and hands `FAISS.from_documents` an empty chunk list,
which raises — the constructor fails instead of producing an empty,
queryable index.  Failing input: empty `docs` folder, no `index.faiss` or
`index.pkl`, no manifest. -/
theorem C5_empty_folder_crash (env : Env) :
    build_or_update_vectorstore env ⟨[], none, .absent⟩
      = .error .faissEmptyIndexError := rfl

/-! ### C6 -/

/-- C6 (counterexample): a corrupt manifest next to intact index files and
one document takes the incremental-add branch, not the full-rebuild path
the claim asserts. -/
theorem C6_counterexample :
    (build_or_update_vectorstore env0 diskCorrupt).map (fun r => r.branch)
      = .ok .incrementalAdd ∧
    Branch.incrementalAdd ≠ Branch.fullRebuild :=
  ⟨rfl, by decide⟩

/-- C6 (amended): `_load_manifest` returns the empty manifest when the file
is absent or corrupt and the parsed mapping otherwise, raising no error
(it is total); combined with the diff logic, a corrupt manifest forces the
full-rebuild path whenever the index files are missing or incomplete —
but when both index files are present the run treats every current document
as new and takes the incremental-add (or no-op) path instead. -/
theorem C6_load_manifest_recovery :
    (∀ d : Disk, d.manifestFile = none → load_manifest d = []) ∧
    (∀ d : Disk, d.manifestFile = some .corrupt → load_manifest d = []) ∧
    (∀ (d : Disk) (m : List (String × Fingerprint)),
      d.manifestFile = some (.valid m) → load_manifest d = m) ∧
    (∀ (env : Env) (d : Disk), faiss_exists d = false →
      build_or_update_vectorstore env d
        = build_full_index env d (scan_pdfs d.folder)) := by
  refine ⟨?_, ?_, ?_, ?_⟩
  · intro d hd
    unfold load_manifest
    rw [hd]
  · intro d hd
    unfold load_manifest
    rw [hd]
  · intro d m hd
    unfold load_manifest
    rw [hd]
  · intro env d hf
    have hcond : need_full_rebuild (faiss_exists d)
        (modified_files (scan_pdfs d.folder) (load_manifest d))
        (removed_files (scan_pdfs d.folder) (load_manifest d))
        (load_manifest d) (scan_pdfs d.folder) = true := by
      rw [hf]
      simp [need_full_rebuild]
    simp only [build_or_update_vectorstore]
    rw [hcond]
    simp

/-- C6 witness: the recovery behaviour evaluated on concrete disks,
including the corrupt-manifest-without-index full rebuild. -/
theorem C6_load_manifest_recovery_witness :
    load_manifest ⟨[], none, .absent⟩ = [] ∧
    load_manifest ⟨[], some .corrupt, .absent⟩ = [] ∧
    load_manifest ⟨[], some (.valid [("a.pdf", ⟨[1], 0⟩)]), .absent⟩ = [("a.pdf", ⟨[1], 0⟩)] ∧
    build_or_update_vectorstore env0 ⟨[("a.pdf", ⟨[1], 0⟩)], some .corrupt, .absent⟩
      = build_full_index env0 ⟨[("a.pdf", ⟨[1], 0⟩)], some .corrupt, .absent⟩
          (scan_pdfs (⟨[("a.pdf", ⟨[1], 0⟩)], some .corrupt, .absent⟩ : Disk).folder) :=
  ⟨C6_load_manifest_recovery.1 _ rfl,
   C6_load_manifest_recovery.2.1 _ rfl,
   C6_load_manifest_recovery.2.2.1 _ _ rfl,
   C6_load_manifest_recovery.2.2.2 env0 _ rfl⟩

/-! ### C7 -/

/-- C7: the content hash is a pure, deterministic function of the file
bytes alone — equal byte content gives an equal digest for every positive
block size (so block-read boundaries are irrelevant), and the fingerprint's
hash ignores the file name and modification time. -/
theorem C7_hash_deterministic :
    (∀ (content : List Nat) (cs1 cs2 : Nat), 0 < cs1 → 0 < cs2 →
        hash_file cs1 content = hash_file cs2 content) ∧
    (∀ f1 f2 : FileEntry, f1.content = f2.content →
        (fingerprintOf f1).hash = (fingerprintOf f2).hash) := by
  constructor
  · intro c cs1 cs2 h1 h2
    rw [hash_file_eq_content cs1 c h1, hash_file_eq_content cs2 c h2]
  · intro f1 f2 hc
    unfold fingerprintOf
    simp only [hc]

/-- C7 witness: two block sizes and two files with equal bytes but
different modification times. -/
theorem C7_hash_deterministic_witness :
    (0 < 1 ∧ 0 < 2 ∧ hash_file 1 [3, 4, 5] = hash_file 2 [3, 4, 5]) ∧
    ((⟨[7], 0⟩ : FileEntry).content = (⟨[7], 9⟩ : FileEntry).content ∧
      (fingerprintOf ⟨[7], 0⟩).hash = (fingerprintOf ⟨[7], 9⟩).hash) :=
  ⟨⟨by decide, by decide,
      C7_hash_deterministic.1 [3, 4, 5] 1 2 (by decide) (by decide)⟩,
   ⟨rfl, C7_hash_deterministic.2 ⟨[7], 0⟩ ⟨[7], 9⟩ rfl⟩⟩

/-! ### C8 -/

/-- C8 (counterexample): in the state where no index object exists
(`self.vectorstore` is `None`), `retrieve_relevant_context` raises
`AttributeError` rather than returning the empty string. -/
theorem C8_counterexample :
    retrieve_relevant_context env0 none "hello" = .error .attributeError ∧
    ∀ s, retrieve_relevant_context env0 none "hello" ≠ .ok s :=
  ⟨rfl, fun _ h => Except.noConfusion h⟩

/-- C8 (amended): with an index object set, `retrieve_relevant_context`
returns the chunks of `similarity_search(query, k=20)` joined by newlines
in the order the search returned them; in particular it returns the empty
string whenever the search finds no chunks (e.g. the store is empty).  When
no index object is set it raises `AttributeError` instead. -/
theorem C8_retrieve_join (env : Env) (vs : List Chunk) (q : String) :
    retrieve_relevant_context env (some vs) q
      = .ok (String.intercalate "\n" ((env.similarity_search vs q 20).map Chunk.text)) ∧
    (env.similarity_search vs q 20 = [] →
      retrieve_relevant_context env (some vs) q = .ok "") := by
  constructor
  · rfl
  · intro h
    have h1 : retrieve_relevant_context env (some vs) q
        = .ok (String.intercalate "\n" ((env.similarity_search vs q 20).map Chunk.text)) := rfl
    rw [h1, h]
    rfl

/-- C8 witness: the join shape and the empty-store case under `env0`. -/
theorem C8_retrieve_join_witness :
    (retrieve_relevant_context env0 (some []) "q"
      = .ok (String.intercalate "\n" ((env0.similarity_search [] "q" 20).map Chunk.text))) ∧
    env0.similarity_search [] "q" 20 = [] ∧
    retrieve_relevant_context env0 (some []) "q" = .ok "" :=
  ⟨(C8_retrieve_join env0 [] "q").1, rfl, (C8_retrieve_join env0 [] "q").2 rfl⟩

/-! ### C9 -/

/-- C9: in every successful run, each `savedManifest` event in the trace is
preceded by a `savedIndex` event — the manifest is never written before the
index state has been persisted (full rebuild and incremental add both write
the index first; the no-op branch writes nothing). -/
theorem C9_manifest_after_index (env : Env) (d : Disk) (r : RunResult)
    (h : build_or_update_vectorstore env d = .ok r) :
    manifestAfterIndex false r.trace = true := by
  rcases reconcile_cases env d r h with ⟨_, hok⟩ | ⟨_, _, hok⟩ | ⟨_, _, cs, _, hr⟩
  · have hr := build_full_index_ok_elim hok
    subst hr
    exact manifestAfterIndex_loads_pair _ false
  · obtain ⟨cs0, _, hr⟩ := incremental_add_ok_elim hok
    subst hr
    exact manifestAfterIndex_loads_pair _ false
  · subst hr
    rfl

/-- C9 witness: the write ordering on the fresh-install rebuild trace. -/
theorem C9_manifest_after_index_witness :
    manifestAfterIndex false runFresh.trace = true :=
  C9_manifest_after_index env0 diskFresh runFresh rfl

/-! ### C10 -/

/-- C10: every branch of a successful reconciliation assigns the
vectorstore, so after the constructor returns without error the store is
never the initial `None`, and `retrieve_relevant_context` on it never hits
the uninitialised-index `AttributeError`. -/
theorem C10_vectorstore_always_set (env : Env) (d : Disk) (r : RunResult)
    (h : build_or_update_vectorstore env d = .ok r) :
    r.vectorstore.isSome = true ∧
    ∀ q, ∃ s, retrieve_relevant_context env r.vectorstore q = .ok s := by
  obtain ⟨_, ⟨cs, _, hvs⟩, _⟩ := reconcile_post env d r h
  rw [hvs]
  exact ⟨rfl, fun q => ⟨_, rfl⟩⟩

/-- C10 witness: the store is set after the fresh-install run. -/
theorem C10_vectorstore_always_set_witness :
    runFresh.vectorstore.isSome = true ∧
    ∀ q, ∃ s, retrieve_relevant_context env0 runFresh.vectorstore q = .ok s :=
  C10_vectorstore_always_set env0 diskFresh runFresh rfl
